import Mathlib

/-!
Shallow embedding of `src/sessionconductor.py` (django-session-conductor).

The session and all Python dicts are modelled as association lists with
unique keys, preserving insertion order; `None` is a first-class value
(`Val.none`), since `dict.get` produces it for absent keys and it can be
written back into the session.  Failures (`KeyError` from `del d[k]` or
`d[k]`, the exception raised by `handle_missing_key`, and failures raised
by the wrapped view) are modelled with an explicit error type; stateful
code is explicit state passing, and an operation that can raise returns
the session state reached at the point of the raise together with the
error, mirroring the fact that a Python exception leaves the mutable
session as it was when the exception was raised.
-/

/-- Values stored in a session or dict.  Python `None` is `Val.none`. -/
inductive Val where
  | none
  | int (n : Int)
  | str (s : String)
  deriving DecidableEq, Repr

/-- Errors that a call can raise: Python `KeyError`, the exception raised
by `handle_missing_key`, and arbitrary failures of the wrapped view. -/
inductive Err where
  | keyError (k : String)
  | missingKey (k : String)
  | handlerErr (msg : String)
  deriving DecidableEq, Repr

abbrev Key := String

abbrev Dict := List (Key × Val)

abbrev Session := Dict

/-- Lookup of a key in a dict / session (first entry wins; keys are unique
by construction, as in a Python dict). -/
def dlookup (d : Dict) (k : Key) : Option Val :=
  match d with
  | [] => Option.none
  | p :: rest => if p.1 = k then Option.some p.2 else dlookup rest k

/-- Python `k in d`. -/
def hasKey (d : Dict) (k : Key) : Bool :=
  (dlookup d k).isSome

/-- Python `d.get(k)`: the stored value, or `None` when the key is absent. -/
def pyGet (d : Dict) (k : Key) : Val :=
  (dlookup d k).getD Val.none

/-- Python `d[k] = v`: overwrite in place when present, append when new. -/
def pySet (d : Dict) (k : Key) (v : Val) : Dict :=
  if hasKey d k then d.map (fun p => if p.1 = k then (k, v) else p) else d ++ [(k, v)]

/-- Drop every entry for key `k` (at most one, given unique keys). -/
def delKey (d : Dict) (k : Key) : Dict :=
  match d with
  | [] => []
  | p :: rest => if p.1 = k then delKey rest k else p :: delKey rest k

/-- Python `del d[k]`: raises `KeyError` when the key is absent. -/
def pyDel (d : Dict) (k : Key) : Except Err Dict :=
  if hasKey d k then Except.ok (delKey d k) else Except.error (Err.keyError k)

/-- Python `d[k]`: raises `KeyError` when the key is absent. -/
def pyGetItem (d : Dict) (k : Key) : Except Err Val :=
  match dlookup d k with
  | Option.some v => Except.ok v
  | Option.none => Except.error (Err.keyError k)

/-- Python `d.update(e)`: assign every pair of `e` into `d`, in order. -/
def dictUpdate (d : Dict) (e : Dict) : Dict :=
  match e with
  | [] => d
  | p :: rest => dictUpdate (pySet d p.1 p.2) rest

/-- Python `x.startswith('_')` for the one-character reserved marker: true
iff the first character of `k` is an underscore. -/
def underscored (k : Key) : Bool :=
  match k.data with
  | [] => false
  | c :: _ => c = '_'

/-- Python `d.keys()` (a list in Python 2, which this source targets). -/
def dictKeys (d : Dict) : List Key :=
  d.map Prod.fst

/-- The keys of a dict are pairwise distinct (guaranteed for any real
Python dict). -/
def keysNodup (d : Dict) : Prop :=
  (dictKeys d).Nodup

/-- The `SessionConductor` instance state: `__init__` stores each argument
(defaulted to `[]` resp. `{}` via `v or ...`) on the correspondingly named
underscore attribute. -/
structure Conductor where
  _save : List Key
  _destroy : List Key
  _skip : List Key
  _ensure : Dict

/-- `SessionConductor.__init__`: each `None` argument is replaced by an
empty list (empty dict for `ensure`). -/
def mkConductor (save destroy skip : Option (List Key)) (ensure : Option Dict) : Conductor :=
  ⟨save.getD [], destroy.getD [], skip.getD [], ensure.getD []⟩

/-- `SessionConductor.save`: `self._save + (xtra or [])`. -/
def Conductor.save (c : Conductor) (xtra : List Key) : List Key :=
  c._save ++ xtra

/-- `SessionConductor.destroy`: `self._destroy + (xtra or [])`. -/
def Conductor.destroy (c : Conductor) (xtra : List Key) : List Key :=
  c._destroy ++ xtra

/-- `SessionConductor.skip`: `self._skip + (xtra or [])`. -/
def Conductor.skip (c : Conductor) (xtra : List Key) : List Key :=
  c._skip ++ xtra

/-- `SessionConductor.ensure`: `ens = self._ensure.copy(); ens.update(xtra or --);
return ens` — the copy leaves `self._ensure` untouched, which in this pure
embedding is automatic. -/
def Conductor.ensure (c : Conductor) (xtra : Dict) : Dict :=
  dictUpdate c._ensure xtra

/-- `SessionConductor.reset`: delete every session key that does not start
with an underscore and is not in `keeps`.  In Python 2 `session.keys()`
yields a fresh list, so deleting inside the loop is safe and the net
effect is this filter. -/
def reset (session : Session) (keeps : List Key) : Session :=
  session.filter (fun p => underscored p.1 || keeps.contains p.1)

/-- `SessionConductor.handle_missing_key`: always raises. -/
def handle_missing_key (key : Key) (value : Val) : Option Err :=
  Option.some (Err.missingKey key)

/-- `SessionConductor.skipped_removed`: `pass` (leaves the session as is). -/
def skipped_removed (session : Session) : Session :=
  session

/-- `SessionConductor.skipped_pre_restore`: `pass` (leaves the session as is). -/
def skipped_pre_restore (session : Session) : Session :=
  session

/-- The keyword arguments `get_decorator` may receive.  The source reads
`destroy`, `skip` and `ensure` via `kwargs.get`; a `save` entry can be
passed but is never read. -/
structure Kwargs where
  destroy : Option (List Key)
  skip : Option (List Key)
  ensure : Option Dict
  save : Option (List Key)

/-- The per-decorator state captured by the closure returned from
`get_decorator`: the merged lists/dicts computed on lines 90-95. -/
structure DecCfg where
  save : List Key
  destroy : List Key
  skip : List Key
  ensured : Dict
  ensureKeys : List Key
  keeps : List Key

/-- `SessionConductor.get_decorator` (lines 88-95): merge the call-level
extras with the instance defaults and build the keep list. -/
def get_decorator (c : Conductor) (args : List Key) (kwargs : Kwargs) : DecCfg :=
  let save := c.save args
  let destroy := c.destroy (kwargs.destroy.getD [])
  let skip := c.skip (kwargs.skip.getD [])
  let ensured := kwargs.ensure.getD []
  let ensureKeys := dictKeys (c.ensure ensured)
  ⟨save, destroy, skip, ensured, ensureKeys, save ++ skip ++ ensureKeys⟩

/-- The ensure loop (lines 102-104): for each merged ensure key absent from
the session, evaluate `ensured[x]` (which itself raises `KeyError` when
`x` is only a profile-level ensure key) and call `handle_missing_key`.
The loop only reads the session; it returns the first error raised, if
any. -/
def ensurePhase (ks : List Key) (ensured : Dict) (sess : Session) : Option Err :=
  match ks with
  | [] => Option.none
  | x :: rest =>
    if hasKey sess x then ensurePhase rest ensured sess
    else
      match pyGetItem ensured x with
      | Except.error e => Option.some e
      | Except.ok v =>
        match handle_missing_key x v with
        | Option.some e => Option.some e
        | Option.none => ensurePhase rest ensured sess

/-- A `for x in ks: del sess[x]` loop (used for both the destroy loop,
lines 108-109, and the skip-removal loop, lines 115-116).  On a
`KeyError` the loop stops, returning the session as mutated so far
together with the error. -/
def delKeys (ks : List Key) (sess : Session) : Session × Option Err :=
  match ks with
  | [] => (sess, Option.none)
  | x :: rest =>
    match pyDel sess x with
    | Except.ok s => delKeys rest s
    | Except.error e => (sess, Option.some e)

/-- Lines 107-111: `if destroy: (del each) else: self.reset(sess, keeps)`. -/
def cleanup (destroy : List Key) (keeps : List Key) (sess : Session) : Session × Option Err :=
  if destroy.isEmpty then (reset sess keeps, Option.none)
  else delKeys destroy sess

/-- Line 114, the dict comprehension
over the skip list: one entry per distinct skip key (a Python dict
comprehension collapses duplicates; Python 2 leaves the key order
unspecified, and this model fixes one order), valued by `session.get`,
so absent keys appear with value `None`. -/
def snapshot (skip : List Key) (sess : Session) : Dict :=
  skip.dedup.map (fun x => (x, pyGet sess x))

/-- Lines 122-123: `for x in to_restore: sess[x] = to_restore[x]`. -/
def restore (to_restore : Dict) (sess : Session) : Session :=
  match to_restore with
  | [] => sess
  | p :: rest => restore rest (pySet sess p.1 p.2)

/-- A wrapped view: mutates the session and returns a value, or raises,
leaving the session as mutated so far. -/
abbrev Handler := Session → Session × Except Err Val

/-- The closure `wrapper` (lines 99-124).  The overridable hook methods
`skipped_removed` / `skipped_pre_restore` are passed explicitly so that
their use is observable; the body of `wrapper` in the source contains no
call to either, and there is no try/finally around the view call, so a
view failure propagates without the restore loop running. -/
def wrapper (cfg : DecCfg) (hookRemoved hookPreRestore : Session → Session)
    (fn : Handler) (sess : Session) : Session × Except Err Val :=
  match ensurePhase cfg.ensureKeys cfg.ensured sess with
  | Option.some e => (sess, Except.error e)
  | Option.none =>
    match cleanup cfg.destroy cfg.keeps sess with
    | (s1, Option.some e) => (s1, Except.error e)
    | (s1, Option.none) =>
      let to_restore := snapshot cfg.skip s1
      match delKeys (dictKeys to_restore) s1 with
      | (s2, Option.some e) => (s2, Except.error e)
      | (s2, Option.none) =>
        match fn s2 with
        | (s3, Except.error e) => (s3, Except.error e)
        | (s3, Except.ok ret) => (restore to_restore s3, Except.ok ret)

/-- One full decorated call: `get_decorator` followed by `wrapper`. -/
def runCall (c : Conductor) (args : List Key) (kwargs : Kwargs)
    (hookRemoved hookPreRestore : Session → Session) (fn : Handler)
    (sess : Session) : Session × Except Err Val :=
  wrapper (get_decorator c args kwargs) hookRemoved hookPreRestore fn sess

/-- A view that succeeds without touching the session. -/
def fnOk : Handler :=
  fun s => (s, Except.ok (Val.int 0))

/-- A view that fails without touching the session. -/
def fnFail : Handler :=
  fun s => (s, Except.error (Err.handlerErr "boom"))

/-- A view that sets `bar` to `99` and then fails. -/
def fnMutBarFail : Handler :=
  fun s => (pySet s "bar" (Val.int 99), Except.error (Err.handlerErr "boom"))

/-- A view that sets `bar` to `99` and then succeeds. -/
def fnMutBarOk : Handler :=
  fun s => (pySet s "bar" (Val.int 99), Except.ok (Val.int 0))

/-- The empty keyword-argument record. -/
def kw0 : Kwargs :=
  ⟨Option.none, Option.none, Option.none, Option.none⟩

/-! ### Basic facts about the dict primitives -/

theorem hasKey_true_iff (d : Dict) (k : Key) :
    hasKey d k = true ↔ ∃ v, dlookup d k = Option.some v := by
  simp [hasKey, Option.isSome_iff_exists]

theorem hasKey_false_iff (d : Dict) (k : Key) :
    hasKey d k = false ↔ dlookup d k = Option.none := by
  cases h : dlookup d k <;> simp [hasKey, h]

theorem dlookup_delKey (d : Dict) (x k : Key) :
    dlookup (delKey d x) k = if k = x then Option.none else dlookup d k := by
  induction d with
  | nil => simp [delKey, dlookup]
  | cons p rest ih =>
    by_cases hpx : p.1 = x
    · by_cases hkx : k = x
      · subst hkx
        simp [delKey, hpx, ih]
      · have hpk : p.1 ≠ k := by rw [hpx]; exact fun hh => hkx hh.symm
        have hxk : x ≠ k := fun hh => hkx hh.symm
        simp [delKey, dlookup, hpx, ih, hkx, hpk, hxk]
    · by_cases hpk : p.1 = k
      · have hkx : k ≠ x := by rw [← hpk]; exact hpx
        simp [delKey, dlookup, hpx, hpk, hkx]
      · simp [delKey, dlookup, hpx, hpk, ih]

theorem hasKey_delKey (d : Dict) (x k : Key) :
    hasKey (delKey d x) k = if k = x then false else hasKey d k := by
  by_cases h : k = x <;> simp [hasKey, dlookup_delKey, h]

theorem dlookup_overwrite_ne (d : Dict) (x : Key) (v : Val) (k : Key) (h : k ≠ x) :
    dlookup (d.map (fun p => if p.1 = x then (x, v) else p)) k = dlookup d k := by
  induction d with
  | nil => rfl
  | cons p rest ih =>
    by_cases hp : p.1 = x
    · have hxk : x ≠ k := fun hh => h hh.symm
      have hpk : p.1 ≠ k := by rw [hp]; exact hxk
      simp [dlookup, hp, hxk, hpk, ih]
    · by_cases hpk : p.1 = k <;> simp [dlookup, hp, hpk, h, ih]

theorem dlookup_overwrite_eq (d : Dict) (x : Key) (v : Val) (h : hasKey d x = true) :
    dlookup (d.map (fun p => if p.1 = x then (x, v) else p)) x = Option.some v := by
  induction d with
  | nil => simp [hasKey, dlookup] at h
  | cons p rest ih =>
    by_cases hp : p.1 = x
    · simp [dlookup, hp]
    · have h2 : hasKey rest x = true := by
        simpa [hasKey, dlookup, hp] using h
      simp [dlookup, hp, ih h2]

theorem dlookup_append_none (d b : Dict) (k : Key) (h : dlookup d k = Option.none) :
    dlookup (d ++ b) k = dlookup b k := by
  induction d with
  | nil => rfl
  | cons p rest ih =>
    by_cases hp : p.1 = k
    · simp [dlookup, hp] at h
    · simp only [dlookup, hp, if_false, List.cons_append] at h ⊢
      simp [dlookup, hp]
      exact ih h

theorem dlookup_append_some (d b : Dict) (k : Key) (v : Val)
    (h : dlookup d k = Option.some v) : dlookup (d ++ b) k = Option.some v := by
  induction d with
  | nil => simp [dlookup] at h
  | cons p rest ih =>
    by_cases hp : p.1 = k
    · simp [dlookup, hp] at h ⊢
      exact h
    · simp [dlookup, hp] at h ⊢
      exact ih h

theorem dlookup_pySet (d : Dict) (x : Key) (v : Val) (k : Key) :
    dlookup (pySet d x v) k = if k = x then Option.some v else dlookup d k := by
  unfold pySet
  by_cases hx : hasKey d x
  · by_cases hk : k = x
    · subst hk
      simp [hx, dlookup_overwrite_eq d k v hx]
    · simp [hx, hk, dlookup_overwrite_ne d x v k hk]
  · by_cases hk : k = x
    · subst hk
      have h0 : dlookup d k = Option.none := (hasKey_false_iff d k).mp (by simpa using hx)
      simp [hx, dlookup_append_none d _ k h0, dlookup]
    · have hxk : x ≠ k := fun hh => hk hh.symm
      cases hdk : dlookup d k with
      | some w => simp [hx, hk, dlookup_append_some d _ k w hdk, hdk]
      | none => simp [hx, hk, hxk, dlookup_append_none d _ k hdk, hdk, dlookup]

theorem dlookup_filter (d : Dict) (p : Key → Bool) (k : Key) :
    dlookup (d.filter (fun q => p q.1)) k = if p k then dlookup d k else Option.none := by
  induction d with
  | nil => simp [dlookup]
  | cons q rest ih =>
    by_cases hq : q.1 = k
    · cases hpk : p k
      · simp [List.filter, hq, hpk, dlookup, ih]
      · simp [List.filter, hq, hpk, dlookup, ih]
    · cases hpq : p q.1 <;> simp [List.filter, hq, hpq, dlookup, ih]

theorem dlookup_mem (d : Dict) (k : Key) (v : Val) (h : dlookup d k = Option.some v) :
    (k, v) ∈ d := by
  induction d with
  | nil => simp [dlookup] at h
  | cons p rest ih =>
    by_cases hp : p.1 = k
    · simp only [dlookup, hp, if_true, Option.some.injEq] at h
      have : p = (k, v) := by
        obtain ⟨a, b⟩ := p
        simp only at hp h
        rw [hp, h]
      rw [← this]
      exact List.mem_cons_self p rest
    · simp only [dlookup, hp, if_false] at h
      exact List.mem_cons_of_mem p (ih h)

theorem dlookup_tag (l : List Key) (f : Key → Val) (k : Key) (h : k ∈ l) :
    dlookup (l.map (fun x => (x, f x))) k = Option.some (f k) := by
  induction l with
  | nil => cases h
  | cons x rest ih =>
    by_cases hk : x = k
    · simp [dlookup, hk]
    · have h2 : k ∈ rest := by
        rcases List.mem_cons.mp h with h1 | h1
        · exact absurd h1.symm hk
        · exact h1
      simp [dlookup, hk, ih h2]

/-! ### Facts about the per-phase loops -/

theorem delKeys_lookup_notmem (ks : List Key) (s : Session) (k : Key) (h : ¬ k ∈ ks) :
    dlookup (delKeys ks s).1 k = dlookup s k := by
  induction ks generalizing s with
  | nil => rfl
  | cons x rest ih =>
    have hkx : k ≠ x := fun hh => h (by simp [hh])
    have hrest : ¬ k ∈ rest := fun hh => h (by simp [hh])
    by_cases hx : hasKey s x
    · simp only [delKeys, pyDel, hx, if_true]
      rw [ih _ hrest, dlookup_delKey]
      simp [hkx]
    · simp [delKeys, pyDel, hx]

theorem delKeys_hasKey_mono (ks : List Key) (s : Session) (k : Key)
    (h : hasKey (delKeys ks s).1 k = true) : hasKey s k = true := by
  induction ks generalizing s with
  | nil => exact h
  | cons x rest ih =>
    by_cases hx : hasKey s x
    · simp only [delKeys, pyDel, hx, if_true] at h
      have h2 := ih _ h
      rw [hasKey_delKey] at h2
      by_cases hk : k = x
      · simp [hk] at h2
      · simpa [hk] using h2
    · simpa [delKeys, pyDel, hx] using h

theorem delKeys_ok_hasKey (ks : List Key) (s : Session)
    (h : (delKeys ks s).2 = Option.none) (k : Key) (hk : k ∈ ks) :
    hasKey s k = true := by
  induction ks generalizing s with
  | nil => cases hk
  | cons x rest ih =>
    by_cases hx : hasKey s x
    · rcases List.mem_cons.mp hk with h1 | h2
      · rw [h1]; exact hx
      · simp only [delKeys, pyDel, hx, if_true] at h
        have h3 := ih _ h h2
        rw [hasKey_delKey] at h3
        by_cases hkx : k = x
        · rw [hkx]; exact hx
        · simpa [hkx] using h3
    · simp [delKeys, pyDel, hx] at h

theorem delKeys_ok_removed (ks : List Key) (s : Session)
    (h : (delKeys ks s).2 = Option.none) (k : Key) (hk : k ∈ ks) :
    hasKey (delKeys ks s).1 k = false := by
  induction ks generalizing s with
  | nil => cases hk
  | cons x rest ih =>
    have hx : hasKey s x := delKeys_ok_hasKey _ _ h x (by simp)
    simp only [delKeys, pyDel, hx, if_true] at h ⊢
    rcases List.mem_cons.mp hk with h1 | h2
    · subst h1
      cases hres : hasKey (delKeys rest (delKey s k)).1 k
      · rfl
      · have h3 := delKeys_hasKey_mono rest (delKey s k) k hres
        rw [hasKey_delKey] at h3
        simp at h3
    · exact ih _ h h2

theorem delKeys_all_present (ks : List Key) (s : Session) (hnd : ks.Nodup)
    (hall : ∀ k, k ∈ ks → hasKey s k = true) :
    (delKeys ks s).2 = Option.none ∧
      ∀ k, dlookup (delKeys ks s).1 k =
        if k ∈ ks then Option.none else dlookup s k := by
  induction ks generalizing s with
  | nil =>
    constructor
    · rfl
    · intro k
      simp [delKeys]
  | cons x rest ih =>
    have hx : hasKey s x := hall x (by simp)
    have hnd2 : rest.Nodup := (List.nodup_cons.mp hnd).2
    have hxni : x ∉ rest := (List.nodup_cons.mp hnd).1
    have hall2 : ∀ k, k ∈ rest → hasKey (delKey s x) k = true := by
      intro k hk
      have hkx : k ≠ x := fun hh => hxni (hh ▸ hk)
      rw [hasKey_delKey]
      simp [hkx, hall k (List.mem_cons_of_mem x hk)]
    obtain ⟨ho, hl⟩ := ih (delKey s x) hnd2 hall2
    simp only [delKeys, pyDel, hx, if_true]
    refine ⟨ho, ?_⟩
    intro k
    rw [hl k, dlookup_delKey]
    by_cases hk : k = x
    · subst hk
      simp [hxni]
    · by_cases hr : k ∈ rest <;> simp [hk, hr]

theorem dictKeys_tag (l : List Key) (f : Key → Val) :
    dictKeys (l.map (fun x => (x, f x))) = l := by
  induction l with
  | nil => rfl
  | cons x rest ih =>
    simp only [dictKeys, List.map_cons] at ih ⊢
    rw [ih]

theorem snapshot_keys (skip : List Key) (s : Session) :
    dictKeys (snapshot skip s) = skip.dedup := by
  rw [snapshot, dictKeys_tag]

theorem snapshot_lookup (skip : List Key) (s : Session) (k : Key) (h : k ∈ skip) :
    dlookup (snapshot skip s) k = Option.some (pyGet s k) :=
  dlookup_tag skip.dedup (fun x => pyGet s x) k (List.mem_dedup.mpr h)

theorem snapshot_nodup (skip : List Key) (s : Session) : keysNodup (snapshot skip s) := by
  rw [keysNodup, snapshot_keys]
  exact skip.nodup_dedup

theorem restore_lookup_notmem (tr : Dict) (s : Session) (k : Key)
    (h : ¬ k ∈ dictKeys tr) : dlookup (restore tr s) k = dlookup s k := by
  induction tr generalizing s with
  | nil => rfl
  | cons p rest ih =>
    have hcons : dictKeys (p :: rest) = p.1 :: dictKeys rest := rfl
    have h1 : ¬ k ∈ dictKeys rest := fun hh => h (by rw [hcons]; exact List.mem_cons_of_mem _ hh)
    have h2 : k ≠ p.1 := fun hh => h (by rw [hcons, hh]; exact List.mem_cons_self _ _)
    show dlookup (restore rest (pySet s p.1 p.2)) k = dlookup s k
    rw [ih _ h1, dlookup_pySet]
    simp [h2]

theorem restore_lookup_mem (tr : Dict) (s : Session) (k : Key) (v : Val)
    (hnd : keysNodup tr) (h : (k, v) ∈ tr) :
    dlookup (restore tr s) k = Option.some v := by
  induction tr generalizing s with
  | nil => cases h
  | cons p rest ih =>
    have hnd2 : keysNodup rest := by
      have := hnd
      rw [keysNodup, dictKeys, List.map_cons, List.nodup_cons] at this
      exact this.2
    have hni : ¬ p.1 ∈ dictKeys rest := by
      have := hnd
      rw [keysNodup, dictKeys, List.map_cons, List.nodup_cons] at this
      exact this.1
    rcases List.mem_cons.mp h with h1 | h2
    · have hk : p.1 = k := by rw [← h1]
      have hv : p.2 = v := by rw [← h1]
      show dlookup (restore rest (pySet s p.1 p.2)) k = Option.some v
      rw [restore_lookup_notmem rest _ k (by rw [← hk]; exact hni), dlookup_pySet]
      simp [hk, hv]
    · show dlookup (restore rest (pySet s p.1 p.2)) k = Option.some v
      exact ih _ hnd2 h2

theorem ensurePhase_eq_find (ks : List Key) (ensured : Dict) (sess : Session) :
    ensurePhase ks ensured sess =
      match ks.find? (fun k => !(hasKey sess k)) with
      | Option.none => Option.none
      | Option.some k =>
        Option.some (match dlookup ensured k with
          | Option.some _ => Err.missingKey k
          | Option.none => Err.keyError k) := by
  induction ks with
  | nil => rfl
  | cons x rest ih =>
    by_cases hx : hasKey sess x
    · simp [ensurePhase, List.find?, hx, ih]
    · simp only [ensurePhase, hx, if_false, List.find?, Bool.not_eq_true', Bool.not_true]
      simp only [Bool.not_eq_true] at hx
      simp only [hx, Bool.not_false]
      cases he : dlookup ensured x <;> simp [pyGetItem, he, handle_missing_key]

theorem contains_iff (l : List Key) (k : Key) : l.contains k = true ↔ k ∈ l := by
  simp [List.contains, List.elem_iff]

instance keysNodupDec (d : Dict) : Decidable (keysNodup d) :=
  List.nodupDecidable (dictKeys d)

theorem dlookup_eq_none (d : Dict) (k : Key) (h : ¬ k ∈ dictKeys d) :
    dlookup d k = Option.none := by
  induction d with
  | nil => rfl
  | cons p rest ih =>
    have hcons : dictKeys (p :: rest) = p.1 :: dictKeys rest := rfl
    have h1 : p.1 ≠ k := fun hh => h (by rw [hcons, ← hh]; exact List.mem_cons_self _ _)
    have h2 : ¬ k ∈ dictKeys rest := fun hh => h (by rw [hcons]; exact List.mem_cons_of_mem _ hh)
    simp [dlookup, h1, ih h2]

theorem keysNodup_cons (p : Key × Val) (rest : Dict) (h : keysNodup (p :: rest)) :
    keysNodup rest ∧ ¬ p.1 ∈ dictKeys rest := by
  rw [keysNodup, dictKeys, List.map_cons, List.nodup_cons] at h
  exact ⟨h.2, h.1⟩

theorem dictUpdate_lookup (d e : Dict) (k : Key) (hnd : keysNodup e) :
    dlookup (dictUpdate d e) k =
      match dlookup e k with
      | Option.some v => Option.some v
      | Option.none => dlookup d k := by
  induction e generalizing d with
  | nil => simp [dictUpdate, dlookup]
  | cons p rest ih =>
    obtain ⟨hnd2, hni⟩ := keysNodup_cons p rest hnd
    show dlookup (dictUpdate (pySet d p.1 p.2) rest) k = _
    rw [ih _ hnd2]
    by_cases hk : p.1 = k
    · subst hk
      have hnone : dlookup rest p.1 = Option.none := dlookup_eq_none rest p.1 hni
      simp [dlookup, hnone, dlookup_pySet]
    · have hk2 : k ≠ p.1 := fun hh => hk hh.symm
      cases hr : dlookup rest k <;> simp [dlookup, hk, hr, dlookup_pySet, hk2]

/-- Claim C10: `get_decorator` reads only `destroy`, `skip` and `ensure` from
its keyword arguments; a keyword-supplied `save` list is never read, so the
computed decorator state and the outcome of any wrapped call are the same
as if it had not been supplied. -/
theorem C10_save_kwarg_ignored (c : Conductor) (args : List Key)
    (d sk : Option (List Key)) (en : Option Dict) (sv1 sv2 : Option (List Key))
    (g1 g2 : Session → Session) (fn : Handler) (sess : Session) :
    get_decorator c args ⟨d, sk, en, sv1⟩ = get_decorator c args ⟨d, sk, en, sv2⟩ ∧
    runCall c args ⟨d, sk, en, sv1⟩ g1 g2 fn sess =
      runCall c args ⟨d, sk, en, sv2⟩ g1 g2 fn sess :=
  ⟨rfl, rfl⟩

/-- Claim C8 (refuted): the wrapped call never invokes the
`skipped_removed` / `skipped_pre_restore` hooks — its result is entirely
independent of what those overridable hooks do, where the claim requires
them to be invoked after skip-removal and before restore. -/
theorem C8_hooks_never_invoked (cfg : DecCfg) (g1 g2 g3 g4 : Session → Session)
    (fn : Handler) (sess : Session) :
    wrapper cfg g1 g2 fn sess = wrapper cfg g3 g4 fn sess :=
  rfl

/-- Claim C9: the ensure merge is a right-biased overlay that leaves the
profile mapping untouched: every key of the call-level mapping takes its
call-level value and every other key keeps its profile value, and on the
concrete example the merged mapping is exactly as the claim states. -/
theorem C9_merge_overlay (c : Conductor) (e : Dict) (k : Key) (hnd : keysNodup e) :
    dlookup (c.ensure e) k =
      (match dlookup e k with
       | Option.some v => Option.some v
       | Option.none => dlookup c._ensure k) ∧
    Conductor.ensure ⟨[], [], [], [("a", Val.int 1), ("b", Val.int 2)]⟩
        [("b", Val.int 3), ("c", Val.int 4)] =
      [("a", Val.int 1), ("b", Val.int 3), ("c", Val.int 4)] :=
  ⟨dictUpdate_lookup c._ensure e k hnd, rfl⟩

/-- Witness for C9 at the claim's concrete example, key `b`. -/
theorem C9_witness :
    dlookup (Conductor.ensure ⟨[], [], [], [("a", Val.int 1), ("b", Val.int 2)]⟩
        [("b", Val.int 3), ("c", Val.int 4)]) "b" =
      (match dlookup [("b", Val.int 3), ("c", Val.int 4)] "b" with
       | Option.some v => Option.some v
       | Option.none => dlookup [("a", Val.int 1), ("b", Val.int 2)] "b") :=
  (C9_merge_overlay ⟨[], [], [], [("a", Val.int 1), ("b", Val.int 2)]⟩
    [("b", Val.int 3), ("c", Val.int 4)] "b" (by decide)).1

/-- Claim C5: after a reset-mode cleanup, every remaining key that does not
start with an underscore is in the keep list, and every underscore-prefixed
key keeps its pre-cleanup value. -/
theorem C5_reset_keep_semantics (s : Session) (K : List Key) (k : Key) :
    (hasKey (reset s K) k = true → underscored k = false → k ∈ K) ∧
    (underscored k = true → dlookup (reset s K) k = dlookup s k) := by
  have hr : dlookup (reset s K) k =
      if underscored k || K.contains k then dlookup s k else Option.none :=
    dlookup_filter s (fun x => underscored x || K.contains x) k
  constructor
  · intro h1 h2
    obtain ⟨v, hv⟩ := (hasKey_true_iff _ _).mp h1
    rw [hr, h2] at hv
    simp at hv
    exact hv.1
  · intro h
    rw [hr, h]
    simp

/-- Witness for C5: on a concrete session, a surviving plain key is in the
keep list and an underscore-prefixed key keeps its value. -/
theorem C5_witness :
    "foo" ∈ ["foo"] ∧
    dlookup (reset [("foo", Val.int 1), ("_csrf", Val.str "x")] ["foo"]) "_csrf" =
      dlookup [("foo", Val.int 1), ("_csrf", Val.str "x")] "_csrf" :=
  ⟨(C5_reset_keep_semantics [("foo", Val.int 1), ("_csrf", Val.str "x")] ["foo"] "foo").1
      (by decide) (by decide),
    (C5_reset_keep_semantics [("foo", Val.int 1), ("_csrf", Val.str "x")] ["foo"] "_csrf").2
      (by decide)⟩

/-- Counterexample to C2 as stated: with destroy key `foo` absent from the
session, the destroy loop raises `KeyError` instead of silently skipping
it, both at the cleanup phase and for the whole wrapped call. -/
theorem C2_counterexample :
    (cleanup ["foo"] [] []).2 = Option.some (Err.keyError "foo") ∧
    (runCall ⟨[], ["foo"], [], []⟩ [] kw0 skipped_removed skipped_pre_restore fnOk []).2 =
      Except.error (Err.keyError "foo") :=
  ⟨rfl, rfl⟩

/-- Claim C2 as amended: in destroy mode the cleanup succeeds and removes
exactly the destroy keys provided they are distinct and all present in the
session; deleting an absent destroy key raises a `KeyError` (see the
counterexample). -/
theorem C2_destroy_removes_present_keys (d keeps : List Key) (s : Session)
    (hne : d ≠ []) (hnd : d.Nodup) (hall : ∀ k ∈ d, hasKey s k = true) :
    (cleanup d keeps s).2 = Option.none ∧
    ∀ k, dlookup (cleanup d keeps s).1 k =
      if k ∈ d then Option.none else dlookup s k := by
  have hie : d.isEmpty = false := by
    cases h : d with
    | nil => exact absurd h hne
    | cons a l => rfl
  simpa [cleanup, hie] using delKeys_all_present d s hnd hall

/-- Witness for C2 at a concrete destroy-mode call. -/
theorem C2_witness :
    (cleanup ["foo"] [] [("foo", Val.int 1), ("bar", Val.int 2)]).2 = Option.none ∧
    ∀ k, dlookup (cleanup ["foo"] [] [("foo", Val.int 1), ("bar", Val.int 2)]).1 k =
      if k ∈ ["foo"] then Option.none else dlookup [("foo", Val.int 1), ("bar", Val.int 2)] k :=
  C2_destroy_removes_present_keys ["foo"] [] [("foo", Val.int 1), ("bar", Val.int 2)]
    (by decide) (by decide) (by decide)

/-- Counterexample to C3 as stated: a skip key absent from the session is
snapshotted anyway (with value `None`), its removal is attempted, and the
removal raises `KeyError`, failing the whole call. -/
theorem C3_counterexample :
    snapshot ["foo"] [] = [("foo", Val.none)] ∧
    (delKeys (dictKeys (snapshot ["foo"] [])) []).2 = Option.some (Err.keyError "foo") ∧
    (runCall ⟨[], [], ["foo"], []⟩ [] kw0 skipped_removed skipped_pre_restore fnOk []).2 =
      Except.error (Err.keyError "foo") :=
  ⟨rfl, rfl, rfl⟩

/-- Claim C3 as amended: every distinct skip key is snapshotted — absent
ones with value `None` — and removal is attempted for each snapshotted key;
the removals succeed, deleting exactly those keys, when all skip keys are
present, while any skip key absent from the session makes the removal loop
fail. -/
theorem C3_snapshot_and_removal (skip : List Key) (s : Session) :
    dictKeys (snapshot skip s) = skip.dedup ∧
    (∀ k, k ∈ skip → dlookup (snapshot skip s) k = Option.some (pyGet s k)) ∧
    ((∀ k ∈ skip, hasKey s k = true) →
      (delKeys (dictKeys (snapshot skip s)) s).2 = Option.none ∧
      ∀ k, dlookup (delKeys (dictKeys (snapshot skip s)) s).1 k =
        if k ∈ skip.dedup then Option.none else dlookup s k) ∧
    (∀ k, k ∈ skip → hasKey s k = false →
      (delKeys (dictKeys (snapshot skip s)) s).2 ≠ Option.none) := by
  refine ⟨snapshot_keys skip s, fun k hk => snapshot_lookup skip s k hk, ?_, ?_⟩
  · intro hall
    rw [snapshot_keys]
    exact delKeys_all_present skip.dedup s skip.nodup_dedup
      (fun k hk => hall k (List.mem_dedup.mp hk))
  · intro k hk habs hok
    have hmem : k ∈ dictKeys (snapshot skip s) := by
      rw [snapshot_keys]
      exact List.mem_dedup.mpr hk
    have := delKeys_ok_hasKey (dictKeys (snapshot skip s)) s hok k hmem
    rw [habs] at this
    cases this

/-- Witness for C3 at a concrete call with one present skip key. -/
theorem C3_witness :
    dlookup (snapshot ["bar"] [("bar", Val.int 2)]) "bar" =
      Option.some (pyGet [("bar", Val.int 2)] "bar") ∧
    (delKeys (dictKeys (snapshot ["bar"] [("bar", Val.int 2)])) [("bar", Val.int 2)]).2 =
      Option.none :=
  ⟨(C3_snapshot_and_removal ["bar"] [("bar", Val.int 2)]).2.1 "bar" (by decide),
    ((C3_snapshot_and_removal ["bar"] [("bar", Val.int 2)]).2.2.1 (by decide)).1⟩

/-- Counterexample to C4 as stated: with a profile-level ensure key `a`
absent from both the session and the call-level ensure mapping, the call
fails with `KeyError` (raised by the `ensured[x]` lookup on the call-level
mapping), not with the missing-required-key error. -/
theorem C4_counterexample :
    (runCall ⟨[], [], [], [("a", Val.int 1)]⟩ [] kw0 skipped_removed skipped_pre_restore
        fnOk []).2 = Except.error (Err.keyError "a") ∧
    ∀ k : Key, (Except.error (Err.keyError "a") : Except Err Val) ≠
      Except.error (Err.missingKey k) := by
  refine ⟨rfl, fun k h => ?_⟩
  simp at h

/-- Claim C4 as amended: when some effective ensure key is absent from the
session, the call fails before any session mutation — with the
missing-required-key error when the (first) absent key is in the call-level
ensure mapping, and with a `KeyError` on that mapping otherwise; the
session is returned exactly as it was and the handler is never invoked
(the outcome is independent of the handler). -/
theorem C4_ensure_failure_before_mutation (c : Conductor) (args : List Key)
    (kwargs : Kwargs) (g1 g2 : Session → Session) (fn fn2 : Handler)
    (sess : Session) (k : Key)
    (hfind : (get_decorator c args kwargs).ensureKeys.find?
        (fun x => !(hasKey sess x)) = Option.some k) :
    runCall c args kwargs g1 g2 fn sess =
      (sess, Except.error (match dlookup (get_decorator c args kwargs).ensured k with
        | Option.some _ => Err.missingKey k
        | Option.none => Err.keyError k)) ∧
    runCall c args kwargs g1 g2 fn sess = runCall c args kwargs g1 g2 fn2 sess := by
  have he := ensurePhase_eq_find (get_decorator c args kwargs).ensureKeys
    (get_decorator c args kwargs).ensured sess
  rw [hfind] at he
  constructor
  · simp [runCall, wrapper, he]
  · simp [runCall, wrapper, he]

/-- Witness for C4: profile ensure key `a`, empty call-level mapping, empty
session — the call fails with `KeyError "a"`, the session comes back
unchanged, and swapping the handler does not change the outcome. -/
theorem C4_witness :
    runCall ⟨[], [], [], [("a", Val.int 1)]⟩ [] kw0 skipped_removed skipped_pre_restore
        fnOk [] = ([], Except.error (Err.keyError "a")) ∧
    runCall ⟨[], [], [], [("a", Val.int 1)]⟩ [] kw0 skipped_removed skipped_pre_restore
        fnOk [] =
      runCall ⟨[], [], [], [("a", Val.int 1)]⟩ [] kw0 skipped_removed skipped_pre_restore
        fnFail [] :=
  C4_ensure_failure_before_mutation ⟨[], [], [], [("a", Val.int 1)]⟩ [] kw0
    skipped_removed skipped_pre_restore fnOk fnFail [] "a" rfl

/-- Counterexample to C1 as stated: the view fails, and the snapshotted
skip key `bar` is NOT written back — the call returns with `bar` absent
from the session while the failure propagates. -/
theorem C1_counterexample :
    runCall ⟨[], [], ["bar"], []⟩ [] kw0 skipped_removed skipped_pre_restore fnFail
        [("bar", Val.int 2)] = ([], Except.error (Err.handlerErr "boom")) ∧
    hasKey (runCall ⟨[], [], ["bar"], []⟩ [] kw0 skipped_removed skipped_pre_restore fnFail
        [("bar", Val.int 2)]).1 "bar" = false :=
  ⟨rfl, rfl⟩

/-- Claim C1 as amended: there is no try/finally around the view call, so
the restore loop runs only on normal return; when the view fails, the
failure propagates immediately and the session is returned exactly as the
view left it, without the skip snapshot being written back. -/
theorem C1_no_restore_on_handler_failure (cfg : DecCfg) (g1 g2 : Session → Session)
    (fn : Handler) (sess s1 s2 s3 : Session) (e : Err)
    (hens : ensurePhase cfg.ensureKeys cfg.ensured sess = Option.none)
    (hclean : cleanup cfg.destroy cfg.keeps sess = (s1, Option.none))
    (hdel : delKeys (dictKeys (snapshot cfg.skip s1)) s1 = (s2, Option.none))
    (hfn : fn s2 = (s3, Except.error e)) :
    wrapper cfg g1 g2 fn sess = (s3, Except.error e) := by
  simp [wrapper, hens, hclean, hdel, hfn]

/-- Witness for C1 at the concrete failing call of the counterexample. -/
theorem C1_witness :
    wrapper (get_decorator ⟨[], [], ["bar"], []⟩ [] kw0) skipped_removed
        skipped_pre_restore fnFail [("bar", Val.int 2)] =
      ([], Except.error (Err.handlerErr "boom")) :=
  C1_no_restore_on_handler_failure (get_decorator ⟨[], [], ["bar"], []⟩ [] kw0)
    skipped_removed skipped_pre_restore fnFail [("bar", Val.int 2)]
    [("bar", Val.int 2)] [] [] (Err.handlerErr "boom") rfl rfl rfl rfl

/-- Claim C6: when the effective destroy list is non-empty the reset /
keep-list logic never executes (the call's outcome is independent of the
keep list), and the cleanup phase does not touch any session key outside
the destroy list. -/
theorem C6_destroy_mode_frame (cfg : DecCfg) (g1 g2 : Session → Session) (fn : Handler)
    (sess : Session) (keeps2 : List Key) (k : Key)
    (hne : cfg.destroy ≠ []) :
    wrapper ⟨cfg.save, cfg.destroy, cfg.skip, cfg.ensured, cfg.ensureKeys, keeps2⟩
        g1 g2 fn sess = wrapper cfg g1 g2 fn sess ∧
    (hasKey sess k = true → ¬ k ∈ cfg.destroy → underscored k = false →
      dlookup (cleanup cfg.destroy cfg.keeps sess).1 k = dlookup sess k) := by
  have hie : cfg.destroy.isEmpty = false := by
    cases h : cfg.destroy with
    | nil => exact absurd h hne
    | cons a l => rfl
  constructor
  · simp [wrapper, cleanup, hie]
  · intro _ hmem _
    simp only [cleanup, hie, Bool.false_eq_true, if_false]
    exact delKeys_lookup_notmem cfg.destroy sess k hmem

/-- Witness for C6 at a concrete destroy-mode call. -/
theorem C6_witness :
    wrapper ⟨[], ["baz"], [], [], [], ["zzz"]⟩ skipped_removed skipped_pre_restore fnOk
        [("foo", Val.int 1), ("baz", Val.int 3)] =
      wrapper ⟨[], ["baz"], [], [], [], []⟩ skipped_removed skipped_pre_restore fnOk
        [("foo", Val.int 1), ("baz", Val.int 3)] ∧
    dlookup (cleanup ["baz"] [] [("foo", Val.int 1), ("baz", Val.int 3)]).1 "foo" =
      dlookup [("foo", Val.int 1), ("baz", Val.int 3)] "foo" := by
  have h := C6_destroy_mode_frame ⟨[], ["baz"], [], [], [], []⟩ skipped_removed
    skipped_pre_restore fnOk [("foo", Val.int 1), ("baz", Val.int 3)] ["zzz"] "foo"
    (by decide)
  exact ⟨h.1, h.2 (by decide) (by decide) (by decide)⟩

/-- Counterexample to C7 as stated: the view mutates the skipped key `bar`
and then fails; the restore loop does not run, so the post-call value of
`bar` differs from its pre-call value. -/
theorem C7_counterexample :
    dlookup (runCall ⟨[], [], ["bar"], []⟩ [] kw0 skipped_removed skipped_pre_restore
        fnMutBarFail [("bar", Val.int 2)]).1 "bar" ≠
      dlookup [("bar", Val.int 2)] "bar" := by
  decide

theorem get_decorator_keeps (c : Conductor) (args : List Key) (kwargs : Kwargs) :
    (get_decorator c args kwargs).keeps =
      (get_decorator c args kwargs).save ++ (get_decorator c args kwargs).skip ++
        (get_decorator c args kwargs).ensureKeys :=
  rfl

/-- Claim C7 as amended: when the wrapped call returns normally, every skip
key present in the session before the call has, after the call, exactly its
pre-call value — any mutation the view performed on it is discarded by the
restore overwrite.  (When the view fails the restore does not run; see the
counterexample.) -/
theorem C7_skip_restored_on_success (c : Conductor) (args : List Key) (kwargs : Kwargs)
    (g1 g2 : Session → Session) (fn : Handler) (sess sfin : Session) (ret : Val) (k : Key)
    (hrun : runCall c args kwargs g1 g2 fn sess = (sfin, Except.ok ret))
    (hskip : k ∈ (get_decorator c args kwargs).skip)
    (hpre : hasKey sess k = true) :
    dlookup sfin k = dlookup sess k := by
  cases hens : ensurePhase (get_decorator c args kwargs).ensureKeys
      (get_decorator c args kwargs).ensured sess with
  | some e =>
    have hw : runCall c args kwargs g1 g2 fn sess = (sess, Except.error e) := by
      simp [runCall, wrapper, hens]
    rw [hw] at hrun
    simp at hrun
  | none =>
  cases hclean : cleanup (get_decorator c args kwargs).destroy
      (get_decorator c args kwargs).keeps sess with
  | mk s1 err1 =>
  cases err1 with
  | some e =>
    have hw : runCall c args kwargs g1 g2 fn sess = (s1, Except.error e) := by
      simp [runCall, wrapper, hens, hclean]
    rw [hw] at hrun
    simp at hrun
  | none =>
  cases hdel : delKeys (dictKeys (snapshot (get_decorator c args kwargs).skip s1)) s1 with
  | mk s2 err2 =>
  cases err2 with
  | some e =>
    have hw : runCall c args kwargs g1 g2 fn sess = (s2, Except.error e) := by
      simp [runCall, wrapper, hens, hclean, hdel]
    rw [hw] at hrun
    simp at hrun
  | none =>
  cases hfn : fn s2 with
  | mk s3 out =>
  cases out with
  | error e =>
    have hw : runCall c args kwargs g1 g2 fn sess = (s3, Except.error e) := by
      simp [runCall, wrapper, hens, hclean, hdel, hfn]
    rw [hw] at hrun
    simp at hrun
  | ok r =>
  have hw : runCall c args kwargs g1 g2 fn sess =
      (restore (snapshot (get_decorator c args kwargs).skip s1) s3, Except.ok r) := by
    simp [runCall, wrapper, hens, hclean, hdel, hfn]
  rw [hw] at hrun
  simp only [Prod.mk.injEq, Except.ok.injEq] at hrun
  obtain ⟨hsfin, hret⟩ := hrun
  -- k is one of the snapshotted keys, and the removal loop succeeded on it
  have hkmem : k ∈ dictKeys (snapshot (get_decorator c args kwargs).skip s1) := by
    rw [snapshot_keys]
    exact List.mem_dedup.mpr hskip
  have hks1 : hasKey s1 k = true :=
    delKeys_ok_hasKey _ _ (by rw [hdel]) k hkmem
  -- the cleanup phase did not change the value of k
  have hs1 : dlookup s1 k = dlookup sess k := by
    by_cases hie : (get_decorator c args kwargs).destroy.isEmpty = true
    · -- reset mode: k is in the keep list because the skip list is
      have hs1e : s1 = reset sess (get_decorator c args kwargs).keeps := by
        have h2 : cleanup (get_decorator c args kwargs).destroy
            (get_decorator c args kwargs).keeps sess =
            (reset sess (get_decorator c args kwargs).keeps, Option.none) := by
          simp [cleanup, hie]
        rw [h2] at hclean
        exact (Prod.mk.injEq _ _ _ _).mp hclean.symm |>.1
      have hkk : (get_decorator c args kwargs).keeps.contains k = true := by
        rw [contains_iff, get_decorator_keeps]
        exact List.mem_append_left _ (List.mem_append_right _ hskip)
      have hrs : dlookup (reset sess (get_decorator c args kwargs).keeps) k =
          if underscored k || (get_decorator c args kwargs).keeps.contains k then
            dlookup sess k
          else Option.none :=
        dlookup_filter sess
          (fun x => underscored x || (get_decorator c args kwargs).keeps.contains x) k
      rw [hs1e, hrs, hkk]
      simp
    · -- destroy mode: k survived the destroy loop, so it is not a destroy key
      have hclean2 : delKeys (get_decorator c args kwargs).destroy sess =
          (s1, Option.none) := by
        have hie2 : (get_decorator c args kwargs).destroy.isEmpty = false := by
          cases h : (get_decorator c args kwargs).destroy.isEmpty with
          | false => rfl
          | true => exact absurd h hie
        rw [cleanup, hie2] at hclean
        simpa using hclean
      have hknd : ¬ k ∈ (get_decorator c args kwargs).destroy := by
        intro hkd2
        have hrem := delKeys_ok_removed (get_decorator c args kwargs).destroy sess
          (by rw [hclean2]) k hkd2
        rw [hclean2] at hrem
        rw [hks1] at hrem
        cases hrem
      have hpres := delKeys_lookup_notmem (get_decorator c args kwargs).destroy sess k hknd
      rw [hclean2] at hpres
      exact hpres
  -- the snapshot holds the pre-call value, and the restore writes it back
  obtain ⟨v, hv⟩ := (hasKey_true_iff _ _).mp hpre
  have hpg : pyGet s1 k = v := by
    rw [pyGet, hs1, hv]
    rfl
  have hsnapk : dlookup (snapshot (get_decorator c args kwargs).skip s1) k =
      Option.some v := by
    rw [snapshot_lookup _ _ _ hskip, hpg]
  have hmem2 : (k, v) ∈ snapshot (get_decorator c args kwargs).skip s1 :=
    dlookup_mem _ _ _ hsnapk
  have hfin : dlookup (restore (snapshot (get_decorator c args kwargs).skip s1) s3) k =
      Option.some v :=
    restore_lookup_mem _ _ _ _ (snapshot_nodup _ _) hmem2
  rw [← hsfin, hfin, hv]

/-- Witness for C7: a concrete successful call in which the view overwrote
the skipped key; the final value equals the pre-call value. -/
theorem C7_witness :
    dlookup [("bar", Val.int 2)] "bar" =
      dlookup [("foo", Val.int 7), ("bar", Val.int 2)] "bar" :=
  C7_skip_restored_on_success ⟨[], [], ["bar"], []⟩ [] kw0 skipped_removed
    skipped_pre_restore fnMutBarOk [("foo", Val.int 7), ("bar", Val.int 2)]
    [("bar", Val.int 2)] (Val.int 0) "bar" rfl (by decide) rfl
